import Mathlib

/-!
# Verification of the TodoZen task/group manager

Shallow embedding of the task-list manager of the TodoZen shell extension
(`src/manager.ts` and the pure helper module `src/utils.ts`).

Tasks and groups are persisted as arrays of JSON-serialized records.  For the
operations below, every stored string is a well-formed serialized task record,
and `JSON.parse`/`JSON.stringify` round-trip on such records, so the stored
string arrays are modelled directly as `List Task` / `List Group` of the parsed
values.  Out-of-range array access in JavaScript yields `undefined`, and
`JSON.parse(undefined)` raises a `SyntaxError`; operations that can hit that
path are modelled in `Except Unit`, with `Except.error ()` standing for the
raised exception (raising happens before any store write, so an error result
means the stored array is unchanged).

The defensive parsing layer (`safeParseTask` / `parseTasksWithErrors`) works on
arbitrary strings; there the JavaScript builtin `JSON.parse` is modelled as an
oracle parameter `parse : String → Option Json` producing a JSON value tree,
and all results are proved for every such oracle.  Identifier generation
(`generateId`, wall clock + randomness) is modelled by a fresh-id parameter.
-/

namespace TodoZen

/-- A task record (`Task` in `src/manager.ts` / `src/utils.ts`).
`isFocused` and `groupId` are optional fields; `none` models an absent
(or `undefined`) field. -/
structure Task where
  version : Int
  id : String
  name : String
  isDone : Bool
  isFocused : Option Bool := none
  groupId : Option String := none
deriving DecidableEq, Repr, Inhabited

/-- A group record (`Group` in `src/manager.ts` / `src/utils.ts`). -/
structure Group where
  version : Int
  id : String
  name : String
  color : String
deriving DecidableEq, Repr, Inhabited

/-- `TASK_VERSION` constant. -/
def TASK_VERSION : Int := 1

/-- `GROUP_VERSION` constant. -/
def GROUP_VERSION : Int := 1

/-- `MAX_GROUPS` constant in `src/manager.ts`. -/
def MAX_GROUPS : Nat := 10

/-- JavaScript truthiness of the optional `isFocused` field: truthy exactly
when the field is present and `true`. -/
def isFocusedOn (t : Task) : Bool :=
  t.isFocused.getD false

/-- `task.groupId || 'inbox'` : the effective group of a task; an absent
`groupId` is defaulted to `"inbox"`, and so is an empty string (falsy in JS). -/
def effGroupId (t : Task) : String :=
  match t.groupId with
  | none => "inbox"
  | some s => if s = "" then "inbox" else s

/-- The task object constructed by `TodoListManager.add`:
`{version: TASK_VERSION, id: <generated>, name: task, isDone: false, groupId}`.
The generated id is passed in as `freshId`. -/
def newTask (freshId nm : String) (groupId : Option String) : Task :=
  { version := TASK_VERSION, id := freshId, name := nm, isDone := false,
    isFocused := none, groupId := groupId }

/-- `TodoListManager.add` (equivalently `insertTaskAtCorrectPosition` in
`src/utils.ts`): if the list is non-empty and its first task is focused the
new task is spliced in at index 1, otherwise it is unshifted to index 0; an
empty list just receives the new task. -/
def add (todos : List Task) (freshId nm : String) (groupId : Option String) :
    List Task :=
  match todos with
  | [] => [newTask freshId nm groupId]
  | first :: rest =>
    if isFocusedOn first then first :: newTask freshId nm groupId :: rest
    else newTask freshId nm groupId :: first :: rest

/-- `TodoListManager.remove`: an empty collection returns early (silent no-op);
otherwise `JSON.parse(todos[index])` runs first — for an out-of-range `index`
the access yields `undefined` and `JSON.parse` raises (modelled `.error ()`),
before any write — and then `splice(index, 1)` removes the element. -/
def remove (todos : List Task) (index : Int) : Except Unit (List Task) :=
  if todos.length = 0 then .ok todos
  else if 0 ≤ index ∧ index < (todos.length : Int) then
    .ok (todos.eraseIdx index.toNat)
  else .error ()

/-- `TodoListManager.update`: an empty collection returns early; otherwise the
old task at `index` is parsed first (raising for an out-of-range index).  If
the updated task is focused and `index > 0`, the updated task is written to
slot 0 and the previous slot-0 task to slot `index` (a swap); otherwise the
updated task replaces slot `index` in place. -/
def update (todos : List Task) (index : Int) (todo : Task) :
    Except Unit (List Task) :=
  if todos.length = 0 then .ok todos
  else if 0 ≤ index ∧ index < (todos.length : Int) then
    if isFocusedOn todo ∧ 0 < index then
      .ok ((todos.set 0 todo).set index.toNat (todos.getD 0 default))
    else .ok (todos.set index.toNat todo)
  else .error ()

/-- `matchesGroup` condition inside `countUndoneTasks`:
`!groupId || t.groupId === groupId`.  An absent or empty filter matches
everything; otherwise the task's `groupId` must be literally equal (strict
`===`, so an absent `groupId` matches no filter string). -/
def matchesGroup (t : Task) (groupId : Option String) : Bool :=
  match groupId with
  | none => true
  | some g => if g = "" then true else t.groupId == some g

/-- `countUndoneTasks` in `src/utils.ts` (same filter as
`TodoListManager.getTotalUndone`). -/
def countUndoneTasks (tasks : List Task) (groupId : Option String) : Nat :=
  (tasks.filter (fun t => !t.isDone && matchesGroup t groupId)).length

/-- The backwards scan in `moveTaskToEndOfGroup`:
`for (let i = todos.length - 1; i > index; i--)` breaking at the first (i.e.
highest) `i` whose task has effective group `g`.  `fuel` is the next loop
counter value plus one; the result is `index` when the loop finds nothing. -/
def lastIdxAux (todos : List Task) (index : Nat) (g : String) : Nat → Nat
  | 0 => index
  | i + 1 =>
    if i ≤ index then index
    else if effGroupId (todos.getD i default) = g then i
    else lastIdxAux todos index g i

/-- `lastIndexInGroup` computed by `moveTaskToEndOfGroup`: the largest index
strictly above `index` whose task shares effective group `g`, or `index`
itself when there is none. -/
def lastIndexInGroup (todos : List Task) (index : Nat) (g : String) : Nat :=
  lastIdxAux todos index g todos.length

/-- Body of `moveTaskToEndOfGroup` for an in-range index `i`: if the task is
already the last of its group, return a copy; otherwise splice it out and
re-insert it right after the previously-last task of the group. -/
def moveCore (todos : List Task) (i : Nat) : List Task :=
  if lastIndexInGroup todos i (effGroupId (todos.getD i default)) = i then todos
  else
    (todos.eraseIdx i).insertIdx
      (lastIndexInGroup todos i (effGroupId (todos.getD i default)))
      (todos.getD i default)

/-- `moveTaskToEndOfGroup` in `src/utils.ts`: no-op (a copy) when the list is
empty or the index is out of range, else `moveCore`. -/
def moveTaskToEndOfGroup (todos : List Task) (index : Int) : List Task :=
  if todos.length = 0 ∨ index < 0 ∨ (todos.length : Int) ≤ index then todos
  else moveCore todos index.toNat

/-- The index at which the task handled by `moveTaskToEndOfGroup todos index`
ends up: the scan result for an in-range index, the unchanged `index`
otherwise.  Used to state the corrected idempotence property. -/
def moveDest (todos : List Task) (index : Int) : Int :=
  if todos.length = 0 ∨ index < 0 ∨ (todos.length : Int) ≤ index then index
  else
    (lastIndexInGroup todos index.toNat
      (effGroupId (todos.getD index.toNat default)) : Int)

/-- `moveTasksToGroup` in `src/utils.ts`: rewrite the `groupId` of every task
whose `groupId` is literally `fromGroupId`. -/
def moveTasksToGroup (todos : List Task) (fromGroupId toGroupId : String) :
    List Task :=
  todos.map (fun t =>
    if t.groupId == some fromGroupId then { t with groupId := some toGroupId }
    else t)

/-- `TodoListManager.addGroup`: refuse (no write) when the group count has
reached `MAX_GROUPS`, otherwise append a freshly built group.  The generated
id is passed in as `freshId`.  Returns the JS boolean result together with the
resulting group collection. -/
def addGroup (groups : List Group) (freshId nm color : String) :
    Bool × List Group :=
  if MAX_GROUPS ≤ groups.length then (false, groups)
  else (true, groups ++ [{ version := GROUP_VERSION, id := freshId, name := nm,
                           color := color }])

/-- `TodoListManager.removeGroup`: refuse for `"inbox"` or an unknown id;
otherwise move the member tasks to `"inbox"` (one write to the tasks key) and
filter the group record out (one write to the groups key).  Returns the JS
boolean together with the resulting group and task collections. -/
def removeGroup (groups : List Group) (todos : List Task) (id : String) :
    Bool × List Group × List Task :=
  if id = "inbox" then (false, groups, todos)
  else
    match groups.find? (fun g => g.id == id) with
    | none => (false, groups, todos)
    | some _ =>
      (true, groups.filter (fun g => g.id != id), moveTasksToGroup todos id "inbox")

/-- A raw stored task record as seen by `migrateTask`: every field may be
absent (`none` models both a missing key and an `undefined` value, which
behave identically downstream). -/
structure RawTask where
  version : Option Int := none
  id : Option String := none
  name : Option String := none
  isDone : Option Bool := none
  isFocused : Option Bool := none
  groupId : Option String := none
deriving DecidableEq, Repr

/-- A raw stored group record as seen by `migrateGroup`. -/
structure RawGroup where
  version : Option Int := none
  id : Option String := none
  name : Option String := none
  color : Option String := none
deriving DecidableEq, Repr

/-- JavaScript truthiness of `raw.version` (a number field when present):
falsy when absent or zero. -/
def versionTruthy : Option Int → Bool
  | none => false
  | some v => v != 0

/-- `migrateTask` in `src/utils.ts` (`TodoListManager._migrateTask` is
identical): a record without a (truthy) version is treated as the v0 schema
and upgraded — fresh generated id (passed in as `freshId`), `groupId` set to
`"inbox"`, current version stamped, `name`/`isDone`/`isFocused` carried over;
any other record is returned unchanged. -/
def migrateTask (freshId : String) (raw : RawTask) : RawTask :=
  if versionTruthy raw.version then raw
  else
    { version := some TASK_VERSION, id := some freshId, name := raw.name,
      isDone := raw.isDone, isFocused := raw.isFocused,
      groupId := some "inbox" }

/-- `migrateGroup` in `src/utils.ts`: a record without a truthy version gets
the current version stamped with `id`/`name`/`color` carried over; any other
record is returned unchanged. -/
def migrateGroup (raw : RawGroup) : RawGroup :=
  if versionTruthy raw.version then raw
  else
    { version := some GROUP_VERSION, id := raw.id, name := raw.name,
      color := raw.color }

/-! ## JSON value model for the defensive parsing layer

`safeParseTask` / `parseTasksWithErrors` handle arbitrary strings, so here the
value tree produced by the JavaScript builtin `JSON.parse` is modelled
explicitly.  Numbers are modelled as integers (only `typeof x === 'number'`
checks matter downstream). -/

/-- A JavaScript value as produced by `JSON.parse` (never `undefined`).
Objects are association lists with distinct keys (duplicate keys are already
collapsed by the parser, keeping the last occurrence). -/
inductive Json where
  | null : Json
  | jbool : Bool → Json
  | jnum : Int → Json
  | jstr : String → Json
  | jarr : List Json → Json
  | jobj : List (String × Json) → Json

/-- Key lookup in a parsed JSON object. -/
def jsonLookup (k : String) : List (String × Json) → Option Json
  | [] => none
  | (k', v) :: rest => if k' = k then some v else jsonLookup k rest

/-- JavaScript property access `x.k`: a `TypeError` on `null` (the only value
`JSON.parse` can produce on which property access throws), the object field
(or `undefined` ≙ `none`) on objects, `undefined` on all other values. -/
def getProp : Json → String → Except Unit (Option Json)
  | .null, _ => .error ()
  | .jobj fs, k => .ok (jsonLookup k fs)
  | _, _ => .ok none

/-- JavaScript truthiness of a possibly-`undefined` value. -/
def truthy : Option Json → Bool
  | none => false
  | some .null => false
  | some (.jbool b) => b
  | some (.jnum n) => n != 0
  | some (.jstr s) => s != ""
  | some (.jarr _) => true
  | some (.jobj _) => true

/-- An object field whose value may be `undefined`: JavaScript keeps the key
with value `undefined`, which is observably identical to an absent key for
every later property access, so such fields are simply dropped. -/
def mkField (k : String) : Option Json → List (String × Json)
  | none => []
  | some v => [(k, v)]

/-- The object literal built by the v0 branch of `migrateTask`. -/
def migratedTaskObj (freshId : String) (nm d f : Option Json) : Json :=
  Json.jobj ([("version", Json.jnum 1), ("id", Json.jstr freshId)] ++
    mkField "name" nm ++ mkField "isDone" d ++ mkField "isFocused" f ++
    [("groupId", Json.jstr "inbox")])

/-- `migrateTask` applied to an untyped parsed value, as called from
`safeParseTask`: reading `raw.version` throws on `null` (caught by the caller
as a migration error); a falsy version triggers the v0 upgrade, anything else
is returned as-is. -/
def migrateTaskJson (freshId : String) (raw : Json) : Except Unit Json :=
  match getProp raw "version" with
  | .error e => .error e
  | .ok v =>
    if truthy v then .ok raw
    else
      match getProp raw "name" with
      | .error e => .error e
      | .ok nm =>
        match getProp raw "isDone" with
        | .error e => .error e
        | .ok d =>
          match getProp raw "isFocused" with
          | .error e => .error e
          | .ok f => .ok (migratedTaskObj freshId nm d f)

/-- `!task.id || typeof task.id !== 'string'` fails exactly unless the value
is a non-empty string. -/
def isNonEmptyStr : Option Json → Bool
  | some (.jstr s) => s != ""
  | _ => false

/-- `typeof x === 'boolean'`. -/
def isBoolVal : Option Json → Bool
  | some (.jbool _) => true
  | _ => false

/-- `typeof x === 'number'`. -/
def isNumVal : Option Json → Bool
  | some (.jnum _) => true
  | _ => false

/-- `validateTask` in `src/utils.ts`, on the untyped value produced by
migration: requires a non-empty string `id`, a non-empty string `name`, a
boolean `isDone` and a numeric `version`.  Property access can in principle
throw (modelled in `Except`); the `Bool` result distinguishes the `ok` and
error `Result`s the source returns. -/
def validateTaskJson (t : Json) : Except Unit Bool :=
  match getProp t "id" with
  | .error e => .error e
  | .ok idv =>
    if !isNonEmptyStr idv then .ok false
    else
      match getProp t "name" with
      | .error e => .error e
      | .ok nm =>
        if !isNonEmptyStr nm then .ok false
        else
          match getProp t "isDone" with
          | .error e => .error e
          | .ok d =>
            if !isBoolVal d then .ok false
            else
              match getProp t "version" with
              | .error e => .error e
              | .ok v => if !isNumVal v then .ok false else .ok true

/-- `safeParseTask` in `src/utils.ts`: parse (oracle `parse` models the JS
builtin; `none` is a thrown `SyntaxError`, caught and turned into an error
result), then migrate and validate inside a `try` (thrown `TypeError`s become
migration-error results).  `some t` models an `ok` result carrying the
migrated task value, `none` any error result. -/
def safeParseTask (parse : String → Option Json) (freshId s : String) :
    Option Json :=
  match parse s with
  | none => none
  | some raw =>
    match migrateTaskJson freshId raw with
    | .error _ => none
    | .ok t =>
      match validateTaskJson t with
      | .error _ => none
      | .ok b => if b then some t else none

/-- The indexed loop of `parseTasksWithErrors`; `i` is the current index (used
in error messages) and `gen i` the id `generateId` would produce for the
migration of entry `i`. -/
def parseTasksAux (parse : String → Option Json) (gen : Nat → String) :
    Nat → List String → List Json × List String
  | _, [] => ([], [])
  | i, s :: rest =>
    match safeParseTask parse (gen i) s with
    | some t =>
      ((parseTasksAux parse gen (i + 1) rest).1.cons t,
       (parseTasksAux parse gen (i + 1) rest).2)
    | none =>
      ((parseTasksAux parse gen (i + 1) rest).1,
       (parseTasksAux parse gen (i + 1) rest).2.cons
         ("Task " ++ toString i ++ ": parse, migration or validation error"))

/-- `parseTasksWithErrors` in `src/utils.ts`: partition an array of stored
strings into migrated task values and error messages. -/
def parseTasksWithErrors (parse : String → Option Json) (gen : Nat → String)
    (jsonArray : List String) : List Json × List String :=
  parseTasksAux parse gen 0 jsonArray

/-! ## Concrete sample records (used by witnesses and counterexamples) -/

/-- A plain undone task without a group. -/
def sampleA : Task :=
  { version := 1, id := "a", name := "alpha", isDone := false }

/-- Another plain undone task without a group. -/
def sampleB : Task :=
  { version := 1, id := "b", name := "beta", isDone := false }

/-- A focused task. -/
def sampleFocused : Task :=
  { version := 1, id := "f", name := "focus", isDone := false,
    isFocused := some true }

/-- The default inbox group. -/
def inboxGroup : Group :=
  { version := 1, id := "inbox", name := "Inbox", color := "#3584e4" }

/-- A user group. -/
def workGroup : Group :=
  { version := 1, id := "work", name := "Work", color := "#ff0000" }

/-- An undone task in the `work` group. -/
def workTask : Task :=
  { version := 1, id := "w", name := "work item", isDone := false,
    groupId := some "work" }

end TodoZen

namespace TodoZen

/-! ## Theorems -/

/-- C3: `addTask` inserts the freshly built task (`isDone = false`, current
version, generated id) at index 0, unless the list is non-empty and its first
task is focused, in which case it is inserted at index 1; on an empty list the
new task becomes the sole element.  The remaining tasks keep their order. -/
theorem add_insert_position (todos : List Task) (freshId nm : String)
    (gid : Option String) :
    (newTask freshId nm gid).isDone = false ∧
    (newTask freshId nm gid).version = TASK_VERSION ∧
    (todos = [] → add todos freshId nm gid = [newTask freshId nm gid]) ∧
    (∀ first rest, todos = first :: rest →
      (first.isFocused = some true →
        add todos freshId nm gid = first :: newTask freshId nm gid :: rest) ∧
      (first.isFocused ≠ some true →
        add todos freshId nm gid = newTask freshId nm gid :: first :: rest)) := by
  refine ⟨rfl, rfl, fun h => by rw [h]; rfl,
    fun first rest h => ⟨fun hf => ?_, fun hf => ?_⟩⟩
  · subst h
    simp [add, isFocusedOn, hf]
  · subst h
    have hb : isFocusedOn first = false := by
      unfold isFocusedOn
      rcases hfoc : first.isFocused with _ | b
      · rfl
      · cases b
        · rfl
        · exact absurd hfoc hf
    simp [add, hb]

/-- Witness for C3 at concrete inputs: empty list, focused head, unfocused
head. -/
theorem add_insert_position_witness :
    add [] "id1" "x" none = [newTask "id1" "x" none] ∧
    add [sampleFocused] "id1" "x" none =
      [sampleFocused, newTask "id1" "x" none] ∧
    add [sampleA] "id1" "x" none = [newTask "id1" "x" none, sampleA] :=
  ⟨(add_insert_position [] "id1" "x" none).2.2.1 rfl,
   ((add_insert_position [sampleFocused] "id1" "x" none).2.2.2
      sampleFocused [] rfl).1 rfl,
   ((add_insert_position [sampleA] "id1" "x" none).2.2.2
      sampleA [] rfl).2 (by decide)⟩

/-- C7: the group collection never exceeds `MAX_GROUPS = 10` entries: with the
count at 10 or more, `addGroup` returns `false` and performs no write; below
10, it appends exactly one freshly built group and returns `true`; and a
collection within the bound stays within the bound. -/
theorem addGroup_max (groups : List Group) (freshId nm color : String) :
    (MAX_GROUPS ≤ groups.length →
      addGroup groups freshId nm color = (false, groups)) ∧
    (groups.length < MAX_GROUPS →
      addGroup groups freshId nm color =
        (true, groups ++ [{ version := GROUP_VERSION, id := freshId,
                            name := nm, color := color }])) ∧
    (groups.length ≤ MAX_GROUPS →
      (addGroup groups freshId nm color).2.length ≤ MAX_GROUPS) := by
  refine ⟨fun h => ?_, fun h => ?_, fun h => ?_⟩
  · unfold addGroup
    rw [if_pos h]
  · unfold addGroup
    rw [if_neg (by omega)]
  · unfold addGroup
    split
    · simpa using h
    · simp only [List.length_append, List.length_cons, List.length_nil]
      omega

/-- Witness for C7: an 11th add on a 10-element collection fails and leaves
the 10 entries; an add on an empty collection succeeds. -/
theorem addGroup_max_witness :
    addGroup (List.replicate 10 workGroup) "g" "n" "c" =
      (false, List.replicate 10 workGroup) ∧
    addGroup [] "g" "n" "c" =
      (true, [] ++ [{ version := GROUP_VERSION, id := "g", name := "n",
                      color := "c" }]) :=
  ⟨(addGroup_max (List.replicate 10 workGroup) "g" "n" "c").1 (by decide),
   (addGroup_max [] "g" "n" "c").2.1 (by decide)⟩

/-- C8: migration is idempotent on current-version records — `migrateTask` and
`migrateGroup` return any record already stamped with the current version
unchanged — and a task record lacking a version field is upgraded with the
freshly generated id, `groupId` set to `"inbox"`, the current version stamped,
and `name`, `isDone`, `isFocused` preserved. -/
theorem migrate_idempotent (freshId : String) (rawT : RawTask)
    (rawG : RawGroup) :
    (rawT.version = some TASK_VERSION → migrateTask freshId rawT = rawT) ∧
    (rawG.version = some GROUP_VERSION → migrateGroup rawG = rawG) ∧
    (rawT.version = none →
      migrateTask freshId rawT =
        { version := some TASK_VERSION, id := some freshId,
          name := rawT.name, isDone := rawT.isDone,
          isFocused := rawT.isFocused, groupId := some "inbox" }) := by
  refine ⟨fun h => ?_, fun h => ?_, fun h => ?_⟩
  · simp [migrateTask, versionTruthy, h, TASK_VERSION]
  · simp [migrateGroup, versionTruthy, h, GROUP_VERSION]
  · simp [migrateTask, versionTruthy, h]

/-- Witness for C8: a current-version task and group are unchanged; a v0 task
record is stamped and upgraded. -/
theorem migrate_idempotent_witness :
    migrateTask "fresh" { version := some 1, id := some "a", name := some "n",
                          isDone := some false, isFocused := none,
                          groupId := some "work" } =
      { version := some 1, id := some "a", name := some "n",
        isDone := some false, isFocused := none, groupId := some "work" } ∧
    migrateGroup { version := some 1, id := some "work", name := some "Work",
                   color := some "#ff0000" } =
      { version := some 1, id := some "work", name := some "Work",
        color := some "#ff0000" } ∧
    migrateTask "fresh" { name := some "old", isDone := some true,
                          isFocused := some true } =
      { version := some TASK_VERSION, id := some "fresh", name := some "old",
        isDone := some true, isFocused := some true,
        groupId := some "inbox" } :=
  ⟨(migrate_idempotent "fresh" _ ⟨some 1, some "work", some "Work",
      some "#ff0000"⟩).1 rfl,
   (migrate_idempotent "fresh" ⟨some 1, some "a", some "n", some false,
      none, some "work"⟩ _).2.1 rfl,
   (migrate_idempotent "fresh" ⟨none, none, some "old", some true,
      some true, none⟩ ⟨none, none, none, none⟩).2.2 rfl⟩

/-- C4 is false as stated: an undone task with an absent `groupId` is not
counted by `countUndoneTasks` under the `"inbox"` filter, although the claim
(groupId absent is treated as belonging to `"inbox"`) requires it to be. -/
theorem countUndone_inbox_claim_false :
    countUndoneTasks [sampleA] (some "inbox") = 0 ∧
    sampleA.isDone = false ∧ sampleA.groupId = none ∧
    (List.filter (fun t => !t.isDone &&
      (t.groupId == some "inbox" || t.groupId == none)) [sampleA]).length = 1 := by
  decide

/-- C4 amended: `countUndoneTasks` under a non-empty group filter `g` counts
exactly the undone tasks whose `groupId` is literally `g` — a task with an
absent `groupId` is not counted even for `g = "inbox"` — and with no filter it
counts all undone tasks.  (It is a pure function: no side effects in this
embedding.) -/
theorem countUndone_literal_filter (tasks : List Task) (g : String)
    (hg : g ≠ "") :
    countUndoneTasks tasks (some g) =
      (tasks.filter (fun t => !t.isDone && t.groupId == some g)).length ∧
    countUndoneTasks tasks none =
      (tasks.filter (fun t => !t.isDone)).length := by
  constructor
  · unfold countUndoneTasks
    congr 1
    apply List.filter_congr
    intro t _
    simp [matchesGroup, hg]
  · unfold countUndoneTasks
    congr 1
    apply List.filter_congr
    intro t _
    simp [matchesGroup]

/-- Witness for C4 (amended) on a mixed list. -/
theorem countUndone_literal_filter_witness :
    countUndoneTasks [sampleA, workTask] (some "work") =
      (List.filter (fun t => !t.isDone && t.groupId == some "work")
        [sampleA, workTask]).length ∧
    countUndoneTasks [sampleA, workTask] none =
      (List.filter (fun t => !t.isDone) [sampleA, workTask]).length :=
  countUndone_literal_filter [sampleA, workTask] "work" (by decide)

/-- C2 is false as stated: on a non-empty list an out-of-range index makes
`remove` and `update` raise (via `JSON.parse` of an `undefined` array slot)
instead of being silent no-ops. -/
theorem remove_update_oob_claim_false :
    remove [sampleA] 1 = Except.error () ∧
    remove [sampleA] 1 ≠ Except.ok [sampleA] ∧
    update [sampleA] 1 sampleB = Except.error () ∧
    update [sampleA] 1 sampleB ≠ Except.ok [sampleA] := by
  refine ⟨rfl, ?_, rfl, ?_⟩ <;> intro h <;> exact Except.noConfusion h

/-- C2 amended: on an empty list `remove` and `update` are silent no-ops; on a
non-empty list an out-of-range index (negative or ≥ length) raises a JSON
parse error before any write, so the stored array is still unchanged, but the
call is not silent. -/
theorem remove_update_oob (todos : List Task) (index : Int) (todo : Task) :
    (todos = [] →
      remove todos index = .ok todos ∧ update todos index todo = .ok todos) ∧
    (todos ≠ [] → (index < 0 ∨ (todos.length : Int) ≤ index) →
      remove todos index = .error () ∧ update todos index todo = .error ()) := by
  constructor
  · rintro rfl
    exact ⟨rfl, rfl⟩
  · intro hne hoob
    have hlen : ¬todos.length = 0 := by
      simpa [List.length_eq_zero] using hne
    constructor
    · unfold remove
      rw [if_neg hlen, if_neg (by omega)]
    · unfold update
      rw [if_neg hlen, if_neg (by omega)]

/-- Witness for C2 (amended): the empty list at index 0 and a one-element list
at index 5. -/
theorem remove_update_oob_witness :
    (remove [] 0 = .ok [] ∧ update [] 0 sampleA = .ok []) ∧
    (remove [sampleA] 5 = .error () ∧ update [sampleA] 5 sampleB = .error ()) :=
  ⟨(remove_update_oob [] 0 sampleA).1 rfl,
   (remove_update_oob [sampleA] 5 sampleB).2 (by decide) (by decide)⟩

/-- C1: for a non-empty task list and an index `0 < i < length`, `update`
with a focused task `t` succeeds and performs a pure swap: `t` lands at
index 0, the task previously at index 0 lands at index `i`, and every other
position is unchanged. -/
theorem update_focus_swap (todos : List Task) (i : Nat) (t : Task)
    (h0 : 0 < i) (hl : i < todos.length) (hf : t.isFocused = some true) :
    update todos (i : Int) t =
      .ok ((todos.set 0 t).set i (todos.getD 0 default)) ∧
    ((todos.set 0 t).set i (todos.getD 0 default)).length = todos.length ∧
    ((todos.set 0 t).set i (todos.getD 0 default))[0]? = some t ∧
    ((todos.set 0 t).set i (todos.getD 0 default))[i]? = todos[0]? ∧
    (∀ j : Nat, j ≠ 0 → j ≠ i →
      ((todos.set 0 t).set i (todos.getD 0 default))[j]? = todos[j]?) := by
  have hlen : ¬todos.length = 0 := by omega
  have hfoc : isFocusedOn t = true := by simp [isFocusedOn, hf]
  refine ⟨?_, ?_, ?_, ?_, ?_⟩
  · unfold update
    rw [if_neg hlen, if_pos (by constructor <;> omega),
      if_pos ⟨hfoc, by omega⟩]
    simp
  · simp
  · rw [List.getElem?_set_ne (by omega), List.getElem?_set_self (by omega)]
  · rw [List.getElem?_set_self (by simpa using hl),
      List.getD_eq_getElem?_getD, List.getElem?_eq_getElem (by omega)]
    simp
  · intro j hj0 hji
    rw [List.getElem?_set_ne (by omega), List.getElem?_set_ne (by omega)]

/-- Witness for C1 on `[sampleA, sampleB]`, swapping the focused task into
index 0 from index 1. -/
theorem update_focus_swap_witness :
    update [sampleA, sampleB] ((1 : Nat) : Int) sampleFocused =
      .ok (([sampleA, sampleB].set 0 sampleFocused).set 1
        ([sampleA, sampleB].getD 0 default)) ∧
    (([sampleA, sampleB].set 0 sampleFocused).set 1
      ([sampleA, sampleB].getD 0 default)).length = [sampleA, sampleB].length ∧
    (([sampleA, sampleB].set 0 sampleFocused).set 1
      ([sampleA, sampleB].getD 0 default))[0]? = some sampleFocused ∧
    (([sampleA, sampleB].set 0 sampleFocused).set 1
      ([sampleA, sampleB].getD 0 default))[1]? = [sampleA, sampleB][0]? ∧
    (∀ j : Nat, j ≠ 0 → j ≠ 1 →
      (([sampleA, sampleB].set 0 sampleFocused).set 1
        ([sampleA, sampleB].getD 0 default))[j]? = [sampleA, sampleB][j]?) :=
  update_focus_swap [sampleA, sampleB] 1 sampleFocused (by decide) (by decide)
    rfl

/-- Helper: with pairwise-distinct group ids, filtering out an id that is
present removes exactly one record. -/
theorem length_filter_ne_id : ∀ (groups : List Group) (id : String),
    (groups.map Group.id).Nodup → ∀ g0 ∈ groups, g0.id = id →
    (groups.filter (fun g => g.id != id)).length + 1 = groups.length
  | [], _, _, g0, hg0, _ => absurd hg0 (List.not_mem_nil g0)
  | g :: gs, id, hnd, g0, hg0, hid => by
    simp only [List.map_cons, List.nodup_cons] at hnd
    obtain ⟨hgnot, hndgs⟩ := hnd
    by_cases hgid : g.id = id
    · have hall : ∀ g' ∈ gs, (g'.id != id) = true := by
        intro g' hg'
        have hne : g'.id ≠ g.id := by
          intro e
          exact hgnot (e ▸ List.mem_map_of_mem Group.id hg')
        simp [bne_iff_ne, hgid ▸ hne]
      rw [List.filter_cons_of_neg (by simp [bne_iff_ne, hgid]),
        List.filter_eq_self.mpr hall]
      simp
    · have hg0gs : g0 ∈ gs := by
        rcases List.mem_cons.mp hg0 with h | h
        · exact absurd (h ▸ hid) hgid
        · exact h
      rw [List.filter_cons_of_pos (by simp [bne_iff_ne, hgid])]
      simp only [List.length_cons]
      rw [length_filter_ne_id gs id hndgs g0 hg0gs hid]

/-- C6: `removeGroup "inbox"` fails and changes nothing; an id not present in
the groups fails and changes nothing; any other present id succeeds — the
group record(s) with that id are filtered out (exactly one record when group
ids are pairwise distinct), every task that had that `groupId` now carries
`"inbox"`, every other task is untouched, and afterwards no task carries the
removed id. -/
theorem removeGroup_spec (groups : List Group) (todos : List Task)
    (id : String) :
    removeGroup groups todos "inbox" = (false, groups, todos) ∧
    ((∀ g ∈ groups, g.id ≠ id) →
      removeGroup groups todos id = (false, groups, todos)) ∧
    (id ≠ "inbox" → ∀ g0 ∈ groups, g0.id = id →
      removeGroup groups todos id =
        (true, groups.filter (fun g => g.id != id),
          moveTasksToGroup todos id "inbox") ∧
      ((groups.map Group.id).Nodup →
        (groups.filter (fun g => g.id != id)).length + 1 = groups.length) ∧
      (∀ t ∈ moveTasksToGroup todos id "inbox", t.groupId ≠ some id) ∧
      (∀ (j : Nat) (t : Task), todos[j]? = some t →
        (t.groupId = some id →
          (moveTasksToGroup todos id "inbox")[j]? =
            some { t with groupId := some "inbox" }) ∧
        (t.groupId ≠ some id →
          (moveTasksToGroup todos id "inbox")[j]? = some t))) := by
  refine ⟨by simp [removeGroup], fun hnone => ?_, fun hne g0 hg0 hid => ?_⟩
  · unfold removeGroup
    split
    · rfl
    · rw [List.find?_eq_none.mpr (by simpa [beq_iff_eq] using hnone)]
  · obtain ⟨gg, hgg⟩ : ∃ g, groups.find? (fun g => g.id == id) = some g := by
      cases h : groups.find? (fun g => g.id == id) with
      | none =>
        exact absurd (by simpa [beq_iff_eq] using List.find?_eq_none.mp h g0 hg0)
          (by simp [hid])
      | some g => exact ⟨g, rfl⟩
    refine ⟨?_, fun hnd => length_filter_ne_id groups id hnd g0 hg0 hid,
      fun t ht => ?_, fun j t hjt => ?_⟩
    · unfold removeGroup
      rw [if_neg hne, hgg]
    · rcases List.mem_map.mp ht with ⟨t', _, rfl⟩
      by_cases hc : t'.groupId == some id
      · simp only [hc, if_pos]
        intro h
        rw [Option.some_inj.mp h] at hne
        exact hne rfl
      · simp only [hc]
        rw [if_neg (by simp [hc])]
        simpa [beq_iff_eq] using hc
    · have hmap : (moveTasksToGroup todos id "inbox")[j]? =
          (todos[j]?).map (fun t =>
            if t.groupId == some id then { t with groupId := some "inbox" }
            else t) := by
        unfold moveTasksToGroup
        exact List.getElem?_map _ todos j
      rw [hmap, hjt]
      constructor
      · intro hg
        simp [hg]
      · intro hg
        simp [Option.map_some, if_neg (by simpa [beq_iff_eq] using hg)]

/-- Witness for C6: deleting the `work` group from `[inboxGroup, workGroup]`
with one `work` task and one inbox task. -/
theorem removeGroup_spec_witness :
    removeGroup [inboxGroup, workGroup] [workTask, sampleA] "work" =
      (true, [inboxGroup, workGroup].filter (fun g => g.id != "work"),
        moveTasksToGroup [workTask, sampleA] "work" "inbox") ∧
    (([inboxGroup, workGroup].map Group.id).Nodup →
      ([inboxGroup, workGroup].filter (fun g => g.id != "work")).length + 1 =
        [inboxGroup, workGroup].length) ∧
    (∀ t ∈ moveTasksToGroup [workTask, sampleA] "work" "inbox",
      t.groupId ≠ some "work") ∧
    (∀ (j : Nat) (t : Task), [workTask, sampleA][j]? = some t →
      (t.groupId = some "work" →
        (moveTasksToGroup [workTask, sampleA] "work" "inbox")[j]? =
          some { t with groupId := some "inbox" }) ∧
      (t.groupId ≠ some "work" →
        (moveTasksToGroup [workTask, sampleA] "work" "inbox")[j]? = some t)) :=
  (removeGroup_spec [inboxGroup, workGroup] [workTask, sampleA] "work").2.2
    (by decide) workGroup (by simp) rfl

/-- Helper: the scan either finds nothing (result `index`) or returns a
strictly larger in-fuel index whose task matches the group. -/
theorem lastIdxAux_spec (todos : List Task) (index : Nat) (g : String) :
    ∀ fuel, lastIdxAux todos index g fuel = index ∨
      (index < lastIdxAux todos index g fuel ∧
        lastIdxAux todos index g fuel < fuel ∧
        effGroupId (todos.getD (lastIdxAux todos index g fuel) default) = g)
  | 0 => Or.inl rfl
  | i + 1 => by
    simp only [lastIdxAux]
    split
    · exact Or.inl rfl
    · rename_i hgt
      split
      · rename_i heq
        exact Or.inr ⟨by omega, by omega, heq⟩
      · rcases lastIdxAux_spec todos index g i with h | ⟨ha, hb, hc⟩
        · exact Or.inl h
        · exact Or.inr ⟨ha, by omega, hc⟩

/-- Helper: no index strictly between the scan result and the fuel bound
matches the group (the scan takes the highest match). -/
theorem lastIdxAux_max (todos : List Task) (index : Nat) (g : String) :
    ∀ fuel k, lastIdxAux todos index g fuel < k → k < fuel →
      effGroupId (todos.getD k default) ≠ g
  | 0, k, _, h2 => absurd h2 (Nat.not_lt_zero k)
  | i + 1, k, h1, h2 => by
    simp only [lastIdxAux] at h1
    split at h1
    · rename_i hle
      exfalso
      omega
    · rename_i hgt
      split at h1
      · exfalso
        omega
      · rename_i hne
        by_cases hk : k = i
        · subst hk
          exact hne
        · exact lastIdxAux_max todos index g i k h1 (by omega)

/-- Helper: when no index strictly above `index` and below the fuel bound
matches the group, the scan returns `index`. -/
theorem lastIdxAux_none (todos : List Task) (index : Nat) (g : String) :
    ∀ fuel, (∀ k, index < k → k < fuel →
        effGroupId (todos.getD k default) ≠ g) →
      lastIdxAux todos index g fuel = index
  | 0, _ => rfl
  | i + 1, h => by
    simp only [lastIdxAux]
    split
    · rfl
    · rename_i hgt
      split
      · rename_i heq
        exact absurd heq (h i (by omega) (by omega))
      · exact lastIdxAux_none todos index g i
          (fun k hk1 hk2 => h k hk1 (by omega))

/-- `lastIdxAux_spec` at the fuel `moveTaskToEndOfGroup` actually uses. -/
theorem lastIndexInGroup_spec (todos : List Task) (index : Nat) (g : String) :
    lastIndexInGroup todos index g = index ∨
      (index < lastIndexInGroup todos index g ∧
        lastIndexInGroup todos index g < todos.length ∧
        effGroupId (todos.getD (lastIndexInGroup todos index g) default) = g) :=
  lastIdxAux_spec todos index g todos.length

/-- `lastIdxAux_max` at the fuel `moveTaskToEndOfGroup` actually uses. -/
theorem lastIndexInGroup_max (todos : List Task) (index : Nat) (g : String)
    (k : Nat) (h1 : lastIndexInGroup todos index g < k)
    (h2 : k < todos.length) : effGroupId (todos.getD k default) ≠ g :=
  lastIdxAux_max todos index g todos.length k h1 h2

/-- `lastIdxAux_none` at the fuel `moveTaskToEndOfGroup` actually uses. -/
theorem lastIndexInGroup_none (todos : List Task) (index : Nat) (g : String)
    (h : ∀ k, index < k → k < todos.length →
      effGroupId (todos.getD k default) ≠ g) :
    lastIndexInGroup todos index g = index :=
  lastIdxAux_none todos index g todos.length h

/-- Helper: `insertIdx` within bounds is a take/cons/drop decomposition. -/
theorem insertIdx_take_cons_drop {α : Type} (x : α) :
    ∀ (n : Nat) (l : List α), n ≤ l.length →
      l.insertIdx n x = l.take n ++ x :: l.drop n
  | 0, l, _ => by simp
  | n + 1, [], h => by simp at h
  | n + 1, a :: t, h => by
    simp only [List.insertIdx_succ_cons, List.take_succ_cons,
      List.drop_succ_cons, List.cons_append, List.cons.injEq, true_and]
    exact insertIdx_take_cons_drop x n t (by simpa using h)

/-- Helper: splitting a list at an in-range position. -/
theorem take_getElem_drop {α : Type} (l : List α) (i : Nat)
    (h : i < l.length) : l = l.take i ++ l[i] :: l.drop (i + 1) := by
  conv_lhs => rw [← List.take_append_drop i l]
  rw [List.getElem_cons_drop]

/-- Helper: `moveCore` is a no-op when the scan comes back empty-handed. -/
theorem moveCore_of_stay (l : List Task) (j : Nat)
    (h : lastIndexInGroup l j (effGroupId (l.getD j default)) = j) :
    moveCore l j = l := by
  unfold moveCore
  rw [if_pos h]

/-- Helper: explicit shape of `moveCore` when the task actually moves: the
prefix below `i`, then the segment from `i + 1` to the last same-group index,
then the moved task, then the tail. -/
theorem moveCore_decomp (todos : List Task) (i last : Nat) (g : String)
    (hgdef : g = effGroupId (todos.getD i default))
    (hlastdef : last = lastIndexInGroup todos i g)
    (hne : last ≠ i) (h1 : i < last) (h2 : last < todos.length) :
    moveCore todos i =
      (todos.take i ++ (todos.drop (i + 1)).take (last - i)) ++
        todos.getD i default :: todos.drop (last + 1) := by
  have hi : i < todos.length := lt_trans h1 h2
  unfold moveCore
  rw [← hgdef, ← hlastdef, if_neg hne, List.eraseIdx_eq_take_drop_succ]
  rw [insertIdx_take_cons_drop _ last _ (by
    simp only [List.length_append, List.length_take, List.length_drop]
    omega)]
  congr 1
  · rw [List.take_append_eq_append_take]
    congr 1
    · exact List.take_of_length_le (by simp [List.length_take]; omega)
    · congr 1
      simp only [List.length_take]
      omega
  · congr 1
    rw [List.drop_append_eq_append_drop,
      List.drop_of_length_le (by simp [List.length_take]; omega),
      List.nil_append, List.drop_drop]
    congr 1
    simp only [List.length_take]
    omega

/-- Helper: `moveCore` permutes its input. -/
theorem moveCore_perm (todos : List Task) (i : Nat) (hi : i < todos.length) :
    List.Perm (moveCore todos i) todos := by
  unfold moveCore
  split
  · exact List.Perm.refl todos
  · rename_i hne
    rcases lastIndexInGroup_spec todos i (effGroupId (todos.getD i default))
      with h | ⟨h1, h2, _⟩
    · exact absurd h hne
    have hx : todos.getD i default = todos[i] :=
      List.getD_eq_getElem todos default hi
    have perm1 : List.Perm
        ((todos.eraseIdx i).insertIdx
          (lastIndexInGroup todos i (effGroupId (todos.getD i default)))
          (todos.getD i default))
        (todos.getD i default :: todos.eraseIdx i) :=
      List.perm_insertIdx _ _
        (by rw [List.length_eraseIdx, if_pos hi]; omega)
    refine perm1.trans ?_
    rw [List.eraseIdx_eq_take_drop_succ, hx]
    conv_rhs => rw [take_getElem_drop todos i hi]
    exact List.perm_middle.symm

/-- Helper: after `moveCore` has moved the task to the end of its group,
re-running the operation at the landing index is a no-op. -/
theorem moveCore_stable_aux (todos : List Task) (i last : Nat) (g : String)
    (hi : i < todos.length)
    (hgdef : g = effGroupId (todos.getD i default))
    (hlastdef : last = lastIndexInGroup todos i g)
    (hne : last ≠ i) (h1 : i < last) (h2 : last < todos.length) :
    moveTaskToEndOfGroup (moveCore todos i) ((last : Nat) : Int) =
      moveCore todos i := by
  have hdecomp := moveCore_decomp todos i last g hgdef hlastdef hne h1 h2
  have hterm : (todos.take i ++ (todos.drop (i + 1)).take (last - i)).length =
      last := by
    simp only [List.length_append, List.length_take, List.length_drop]
    omega
  have hrlen : (moveCore todos i).length = todos.length := by
    rw [hdecomp]
    simp only [List.length_append, List.length_take, List.length_drop,
      List.length_cons]
    omega
  have hrlast : (moveCore todos i)[last]? = some (todos.getD i default) := by
    rw [hdecomp, List.getElem?_append_right (by omega), hterm]
    simp
  have hrgetD : (moveCore todos i).getD last default = todos.getD i default := by
    rw [List.getD_eq_getElem?_getD, hrlast]
    rfl
  have hrk : ∀ k, last < k → k < todos.length →
      (moveCore todos i)[k]? = todos[k]? := by
    intro k hk1 hk2
    rw [hdecomp, List.getElem?_append_right (by omega), hterm]
    have hsplit : k - last = (k - last - 1) + 1 := by omega
    rw [hsplit, List.getElem?_cons_succ, List.getElem?_drop]
    congr 1
    omega
  have hstay : lastIndexInGroup (moveCore todos i) last
      (effGroupId ((moveCore todos i).getD last default)) = last := by
    rw [hrgetD, ← hgdef]
    apply lastIndexInGroup_none
    intro k hk1 hk2
    rw [hrlen] at hk2
    have heq : (moveCore todos i).getD k default = todos.getD k default := by
      rw [List.getD_eq_getElem?_getD, List.getD_eq_getElem?_getD,
        hrk k hk1 hk2]
    rw [heq]
    exact lastIndexInGroup_max todos i g k (by rw [← hlastdef]; exact hk1) hk2
  unfold moveTaskToEndOfGroup
  rw [if_neg (by rw [hrlen]; omega)]
  show moveCore (moveCore todos i) last = moveCore todos i
  exact moveCore_of_stay (moveCore todos i) last hstay

/-- Helper: `moveCore` followed by `moveTaskToEndOfGroup` at the landing
index is a no-op, also when `moveCore` itself was a no-op. -/
theorem moveCore_stable (todos : List Task) (i : Nat) (hi : i < todos.length) :
    moveTaskToEndOfGroup (moveCore todos i)
      ((lastIndexInGroup todos i (effGroupId (todos.getD i default)) : Nat) :
        Int) = moveCore todos i := by
  by_cases hcase :
      lastIndexInGroup todos i (effGroupId (todos.getD i default)) = i
  · have hmc : moveCore todos i = todos := by
      unfold moveCore
      rw [if_pos hcase]
    rw [hmc, hcase]
    unfold moveTaskToEndOfGroup
    rw [if_neg (by omega)]
    exact hmc
  · rcases lastIndexInGroup_spec todos i (effGroupId (todos.getD i default))
      with h | ⟨hlt1, hlt2, _⟩
    · exact absurd h hcase
    exact moveCore_stable_aux todos i _ _ hi rfl rfl hcase hlt1 hlt2

/-- C9: `moveTaskToEndOfGroup` returns a permutation of its input for every
list and every index: same length and the same multiset of tasks — no task is
created, duplicated or lost. -/
theorem moveToEnd_permutes (todos : List Task) (index : Int) :
    List.Perm (moveTaskToEndOfGroup todos index) todos ∧
    (moveTaskToEndOfGroup todos index).length = todos.length ∧
    ∀ t : Task, (moveTaskToEndOfGroup todos index).count t = todos.count t := by
  have hperm : List.Perm (moveTaskToEndOfGroup todos index) todos := by
    unfold moveTaskToEndOfGroup
    split
    · exact List.Perm.refl todos
    · rename_i hguard
      exact moveCore_perm todos index.toNat (by omega)
  exact ⟨hperm, hperm.length_eq, fun t => hperm.count_eq t⟩

/-- C5 is false as stated: on two same-group tasks `[sampleA, sampleB]`,
`moveTaskToEndOfGroup · 0` swaps them on every call, so applying it twice at
index 0 differs from applying it once. -/
theorem moveToEnd_idempotent_claim_false :
    moveTaskToEndOfGroup (moveTaskToEndOfGroup [sampleA, sampleB] 0) 0 ≠
      moveTaskToEndOfGroup [sampleA, sampleB] 0 := by
  decide

/-- C5 amended: `moveTaskToEndOfGroup` is not idempotent at a fixed index —
the second call moves whatever task now sits at that index — but re-applying
it at the index where the moved task landed (`moveDest`) leaves the array
unchanged; in particular it is a no-op whenever the addressed task is already
the last of its group. -/
theorem moveToEnd_idempotent_at_dest (todos : List Task) (index : Int) :
    moveTaskToEndOfGroup (moveTaskToEndOfGroup todos index)
      (moveDest todos index) = moveTaskToEndOfGroup todos index := by
  by_cases hg : todos.length = 0 ∨ index < 0 ∨ (todos.length : Int) ≤ index
  · have h1 : moveTaskToEndOfGroup todos index = todos := by
      unfold moveTaskToEndOfGroup
      rw [if_pos hg]
    have h2 : moveDest todos index = index := by
      unfold moveDest
      rw [if_pos hg]
    rw [h1, h2, h1]
  · have hi : index.toNat < todos.length := by omega
    have h1 : moveTaskToEndOfGroup todos index = moveCore todos index.toNat := by
      unfold moveTaskToEndOfGroup
      rw [if_neg hg]
    have h2 : moveDest todos index =
        ((lastIndexInGroup todos index.toNat
          (effGroupId (todos.getD index.toNat default)) : Nat) : Int) := by
      unfold moveDest
      rw [if_neg hg]
    rw [h1, h2]
    exact moveCore_stable todos index.toNat hi

/-- Helper: the `id`/`name` check of `validateTask` passes exactly for
non-empty strings. -/
theorem isNonEmptyStr_iff (v : Option Json) :
    isNonEmptyStr v = true ↔ ∃ s, v = some (Json.jstr s) ∧ s ≠ "" := by
  cases v with
  | none => simp [isNonEmptyStr]
  | some j => cases j <;> simp [isNonEmptyStr, bne_iff_ne]

/-- Helper: the `isDone` check of `validateTask` passes exactly for
booleans. -/
theorem isBoolVal_iff (v : Option Json) :
    isBoolVal v = true ↔ ∃ b, v = some (Json.jbool b) := by
  cases v with
  | none => simp [isBoolVal]
  | some j => cases j <;> simp [isBoolVal]

/-- Helper: the `version` check of `validateTask` passes exactly for
numbers. -/
theorem isNumVal_iff (v : Option Json) :
    isNumVal v = true ↔ ∃ n, v = some (Json.jnum n) := by
  cases v with
  | none => simp [isNumVal]
  | some j => cases j <;> simp [isNumVal]

/-- Helper: `validateTask` returns an `ok` result exactly when the record has
a non-empty string `id`, a non-empty string `name`, a boolean `isDone` and a
numeric `version`. -/
theorem validateTaskJson_ok_true_iff (t : Json) :
    validateTaskJson t = Except.ok true ↔
      ((∃ s, getProp t "id" = .ok (some (Json.jstr s)) ∧ s ≠ "") ∧
       (∃ s, getProp t "name" = .ok (some (Json.jstr s)) ∧ s ≠ "") ∧
       (∃ b, getProp t "isDone" = .ok (some (Json.jbool b))) ∧
       (∃ n, getProp t "version" = .ok (some (Json.jnum n)))) := by
  cases t with
  | null => simp [validateTaskJson, getProp]
  | jbool b => simp [validateTaskJson, getProp, isNonEmptyStr]
  | jnum n => simp [validateTaskJson, getProp, isNonEmptyStr]
  | jstr s => simp [validateTaskJson, getProp, isNonEmptyStr]
  | jarr xs => simp [validateTaskJson, getProp, isNonEmptyStr]
  | jobj fs =>
    simp only [validateTaskJson, getProp, Except.ok.injEq,
      ← isNonEmptyStr_iff, ← isBoolVal_iff, ← isNumVal_iff]
    by_cases h1 : isNonEmptyStr (jsonLookup "id" fs) = true <;>
      by_cases h2 : isNonEmptyStr (jsonLookup "name" fs) = true <;>
        by_cases h3 : isBoolVal (jsonLookup "isDone" fs) = true <;>
          by_cases h4 : isNumVal (jsonLookup "version" fs) = true <;>
            simp [h1, h2, h3, h4]

/-- Helper: the loop of `parseTasksWithErrors` partitions its input — task
count plus error count equals the input length — and keeps the accepted tasks
in input order (it is a `filterMap` over the indexed entries). -/
theorem parseTasksAux_spec (parse : String → Option Json)
    (gen : Nat → String) :
    ∀ (l : List String) (i : Nat),
      ((parseTasksAux parse gen i l).1.length +
        (parseTasksAux parse gen i l).2.length = l.length) ∧
      (parseTasksAux parse gen i l).1 =
        (l.enumFrom i).filterMap (fun p => safeParseTask parse (gen p.1) p.2)
  | [], i => by simp [parseTasksAux]
  | s :: rest, i => by
    have ih := parseTasksAux_spec parse gen rest (i + 1)
    simp only [parseTasksAux]
    cases h : safeParseTask parse (gen i) s with
    | none =>
      refine ⟨?_, ?_⟩
      · simp only [List.length_cons]
        omega
      · simp [List.enumFrom, List.filterMap_cons, h, ih.2]
    | some t =>
      refine ⟨?_, ?_⟩
      · simp only [List.length_cons]
        omega
      · simp [List.enumFrom, List.filterMap_cons, h, ih.2]

/-- Helper: `safeParseTask` accepts an entry exactly when parsing succeeds,
migration succeeds and validation returns its `ok` result. -/
theorem safeParseTask_some_iff (parse : String → Option Json)
    (freshId s : String) :
    (∃ t, safeParseTask parse freshId s = some t) ↔
      ∃ raw t, parse s = some raw ∧ migrateTaskJson freshId raw = .ok t ∧
        validateTaskJson t = .ok true := by
  unfold safeParseTask
  cases hp : parse s with
  | none => simp
  | some raw =>
    cases hm : migrateTaskJson freshId raw with
    | error e =>
      simp [hm]
    | ok t =>
      cases hv : validateTaskJson t with
      | error e => simp [hm, hv]
      | ok b =>
        cases b with
        | false => simp [hm, hv]
        | true => simp [hm, hv]

/-- C10: `parseTasksWithErrors` partitions its input completely — the number
of returned tasks plus the number of error messages equals the input length,
the accepted tasks appear in input order (a `filterMap` over the indexed
input) — and an entry is returned as a task exactly when it parses as JSON
and, after migration, carries a non-empty string `id`, a non-empty string
`name`, a boolean `isDone` and a numeric `version`.  Proved for every parse
oracle and id generator. -/
theorem parseTasks_partition (parse : String → Option Json)
    (gen : Nat → String) (l : List String) :
    ((parseTasksWithErrors parse gen l).1.length +
      (parseTasksWithErrors parse gen l).2.length = l.length) ∧
    ((parseTasksWithErrors parse gen l).1 =
      (l.enumFrom 0).filterMap (fun p => safeParseTask parse (gen p.1) p.2)) ∧
    (∀ freshId s, (∃ t, safeParseTask parse freshId s = some t) ↔
      (∃ raw t, parse s = some raw ∧
        migrateTaskJson freshId raw = .ok t ∧
        (∃ sv, getProp t "id" = .ok (some (Json.jstr sv)) ∧ sv ≠ "") ∧
        (∃ sv, getProp t "name" = .ok (some (Json.jstr sv)) ∧ sv ≠ "") ∧
        (∃ b, getProp t "isDone" = .ok (some (Json.jbool b))) ∧
        (∃ n, getProp t "version" = .ok (some (Json.jnum n))))) := by
  refine ⟨(parseTasksAux_spec parse gen l 0).1,
    (parseTasksAux_spec parse gen l 0).2, ?_⟩
  intro freshId s
  rw [safeParseTask_some_iff]
  constructor
  · rintro ⟨raw, t, hp, hm, hv⟩
    exact ⟨raw, t, hp, hm, (validateTaskJson_ok_true_iff t).mp hv⟩
  · rintro ⟨raw, t, hp, hm, hconds⟩
    exact ⟨raw, t, hp, hm, (validateTaskJson_ok_true_iff t).mpr hconds⟩

end TodoZen